import Mathlib

/-!
Verification of the Dashclim data normalization / classification pipeline
(`src/Dashclim.py`): the duration parser `parse_delta_to_hours`, the
record-based status classifier `derive_status`, the two matrix cell
normalizers `norm_cell` / `norm_status_cell`, the latitude/longitude and
month-column header detection, the percentage aggregation `pct_tepat`,
and the map tier classifier `color_hex`.

The Python code is shallowly embedded: strings are `List Char` /
`String`, pandas NaN cells are `Option`, Python floats are modelled as
`ℚ`, and the concrete regular-expression searches of the duration parser
are embedded as an explicit left-to-right scanner with the same
leftmost-match semantics.
-/

namespace Dashclim

/-- Whitespace characters recognized by Python `str.strip` / regex `\s`
on the ASCII inputs involved. -/
def isWs (c : Char) : Bool :=
  c == ' ' || c == '\t' || c == '\n' || c == '\r' || c == '\x0b' || c == '\x0c'

/-- Python `str.strip()`: drop whitespace from both ends. -/
def trimChars (l : List Char) : List Char :=
  ((l.dropWhile isWs).reverse.dropWhile isWs).reverse

/-- Python `str.lower()` (ASCII, as used on the header/cell text here). -/
def lowerChars (l : List Char) : List Char := l.map Char.toLower

/-- Python `str.upper()` (ASCII, as used on the cell text here). -/
def upperChars (l : List Char) : List Char := l.map Char.toUpper

/-- Python substring containment `pat in s`. -/
def containsSub (pat : List Char) : List Char → Bool
  | [] => pat.isEmpty
  | c :: t => pat.isPrefixOf (c :: t) || containsSub pat t

/-- One pass of Python `str.replace(pat, repl)` (non-overlapping, left to
right), driven by a fuel argument so that the kernel can evaluate it.
With `fuel ≥ l.length` the fuel never runs out, since every step consumes
at least one character. -/
def replaceAllGo (pat repl : List Char) : Nat → List Char → List Char
  | 0, l => l
  | _ + 1, [] => []
  | fuel + 1, c :: t =>
    if pat.isPrefixOf (c :: t) then
      repl ++ replaceAllGo pat repl fuel (t.drop (pat.length - 1))
    else
      c :: replaceAllGo pat repl fuel t

/-- Python `str.replace(pat, repl)` for the non-empty literal patterns
used by the parser. -/
def replaceAll (pat repl l : List Char) : List Char :=
  replaceAllGo pat repl l.length l

/-- Value of a run of decimal digits (what `int(re.sub(r"\D", "", g))`
computes on a matched group, whose digits are exactly the run). -/
def digitsVal (l : List Char) : Nat :=
  l.foldl (fun a c => 10 * a + (c.toNat - 48)) 0

/-- Embedding of `re.search(r"(-?\s*\d+)\s*(tok1|tok2|...)", s, re.I)`
followed by `int(re.sub(r"\D", "", m.group(1)))`: scan left to right for
the first position where a maximal digit run, optional whitespace, and
then one of the (lower-case) unit tokens occur; return the run's value.
The optional `-?\s*` prefix of the group changes neither whether a match
exists nor the digits matched, so it is dropped. -/
def findUnit (toks : List (List Char)) : List Char → Option Nat
  | [] => none
  | c :: t =>
    if c.isDigit then
      let run := c :: t.takeWhile Char.isDigit
      let after := ((t.dropWhile Char.isDigit).dropWhile isWs).map Char.toLower
      if toks.any (fun tok => tok.isPrefixOf after) then some (digitsVal run)
      else findUnit toks t
    else findUnit toks t

/-- The normalization chain of `parse_delta_to_hours`:
`s.replace("–","-").replace("—","-").replace("hrs","jam").replace("hr","hari")`. -/
def normDelta (l : List Char) : List Char :=
  replaceAll "hr".data "hari".data
    (replaceAll "hrs".data "jam".data
      (replaceAll "—".data "-".data
        (replaceAll "–".data "-".data l)))

/-- Sign detection of `parse_delta_to_hours`: `-1` iff the normalized
string starts with `-` (a leading `+` keeps the sign at `1`). -/
def signDelta (l : List Char) : ℚ :=
  if (normDelta l).head? = some '-' then -1 else 1

/-- Day magnitude: `re.search(r"(-?\s*\d+)\s*hari", s, re.I)`, default 0. -/
def daysOf (l : List Char) : Nat :=
  (findUnit ["hari".data] (normDelta l)).getD 0

/-- Hour magnitude: `re.search(r"(-?\s*\d+)\s*jam", s, re.I)`, default 0. -/
def hoursOf (l : List Char) : Nat :=
  (findUnit ["jam".data] (normDelta l)).getD 0

/-- Minute magnitude: `re.search(r"(-?\s*\d+)\s*(mnt|min)", s, re.I)`, default 0. -/
def minsOf (l : List Char) : Nat :=
  (findUnit ["mnt".data, "min".data] (normDelta l)).getD 0

/-- Second magnitude: `re.search(r"(-?\s*\d+)\s*(dtk|sec|s)", s, re.I)`, default 0. -/
def secsOf (l : List Char) : Nat :=
  (findUnit ["dtk".data, "sec".data, "s".data] (normDelta l)).getD 0

/-- `parse_delta_to_hours` (src/Dashclim.py lines 147-185). `none` models
Python `None` / pandas NaN input; the result `None` is returned exactly
for NaN or blank input, otherwise
`sign * (days*24 + hours + mins/60 + secs/3600)`. -/
def parse_delta_to_hours (x : Option String) : Option ℚ :=
  match x with
  | none => none
  | some t =>
    let s0 := trimChars t.data
    if s0.isEmpty then none
    else
      some (signDelta s0 *
        ((daysOf s0 : ℚ) * 24 + (hoursOf s0 : ℚ) +
          (minsOf s0 : ℚ) / 60 + (secsOf s0 : ℚ) / 3600))

/-- The `time_diff_hours_num` cell of a row as seen by `derive_status`:
absent column, NaN, a numeric value, or a value on which `float()`
raises (the `except: pass` path). -/
inductive DeltaCell where
  | missing
  | nanCell
  | num (q : ℚ)
  | malformed
deriving DecidableEq

/-- `derive_status` (src/Dashclim.py lines 521-536): the record-based
3-state classifier over `terkirim_bool`, `tepat_bool` and the
`time_diff_hours_num` cell. -/
def derive_status (terkirim tepat : Bool) (delta : DeltaCell) : String :=
  if !terkirim then "TIDAK MENGIRIM"
  else if terkirim && tepat then "TEPAT WAKTU"
  else
    match delta with
    | .num q => if q > 0 then "TEPAT WAKTU" else "TERLAMBAT"
    | _ => "TEPAT WAKTU"

/-- `norm_cell` (src/Dashclim.py lines 1075-1090): month-cell normalizer
of the Monitoring Tahunan (yearly map) page. `none` models a NaN cell. -/
def norm_cell (x : Option String) : String :=
  match x with
  | none => ""
  | some t =>
    let s := upperChars (trimChars t.data)
    if containsSub "TEPAT".data s then "TEPAT WAKTU"
    else if containsSub "TERLAMBAT".data s then "TERLAMBAT"
    else if containsSub "TIDAK".data s || containsSub "TIDAK MENGIRIM".data s ||
        (!containsSub "MENGIRIM".data s && (containsSub "-".data s || s.isEmpty)) then
      if containsSub "TIDAK MENGIRIM".data s || containsSub "TIDAK".data s then
        "TIDAK MENGIRIM"
      else String.mk s
    else String.mk s

/-- `norm_status_cell` (src/Dashclim.py lines 1270-1282): month-cell
normalizer of the Performa Stasiun page. `none` models a NaN cell. -/
def norm_status_cell (x : Option String) : String :=
  match x with
  | none => ""
  | some t =>
    let s := upperChars (trimChars t.data)
    if containsSub "TEPAT".data s then "TEPAT WAKTU"
    else if containsSub "TERLAMBAT".data s then "TERLAMBAT"
    else if containsSub "TIDAK".data s || containsSub "TIDAK MENGIRIM".data s then
      "TIDAK MENGIRIM"
    else if s = "".data || s = "-".data || s = "N/A".data || s = "NA".data then
      "TIDAK MENGIRIM"
    else String.mk s

/-- `hitung` (src/Dashclim.py lines 1096-1097): count the month cells of a
row whose stripped upper-cased value equals `kata`. -/
def hitung (cells : List String) (kata : String) : Nat :=
  (cells.filter (fun c => String.mk (upperChars (trimChars c.data)) = kata)).length

/-- Latitude header predicate of the detection loop
(src/Dashclim.py line 1041). -/
def latHeaderMatch (c : String) : Bool :=
  let cl := lowerChars (trimChars c.data)
  cl = "lat".data || cl = "latitude".data || cl = "coord_lat".data ||
    cl = "y".data || cl.take 3 = "lat".data

/-- Longitude header predicate of the detection loop
(src/Dashclim.py line 1043). -/
def lonHeaderMatch (c : String) : Bool :=
  let cl := lowerChars (trimChars c.data)
  cl = "lon".data || cl = "lng".data || cl = "longitude".data ||
    cl = "coord_lon".data || cl = "x".data ||
    cl.take 3 = "lon".data || cl.take 3 = "lng".data

/-- The lat/lon detection loop (src/Dashclim.py lines 1037-1044): one
left-to-right pass over the headers, assigning `lat_col` / `lon_col` on
every match (so later matches overwrite earlier ones). -/
def detect_latlon (cols : List String) : Option String × Option String :=
  cols.foldl
    (fun acc c =>
      (if latHeaderMatch c then some c else acc.1,
       if lonHeaderMatch c then some c else acc.2))
    (none, none)

/-- The last header satisfying `p`, in left-to-right order. -/
def lastMatch (p : String → Bool) (cols : List String) : Option String :=
  cols.reverse.find? p

/-- The Indonesian month abbreviations, canonical order. -/
def MONTH_ABBR : List String :=
  ["Jan", "Feb", "Mar", "Apr", "Mei", "Jun", "Jul", "Agt", "Sep", "Okt", "Nov", "Des"]

/-- `str(c).strip()[:3].lower()` of a header. -/
def colKey (c : String) : List Char := lowerChars (List.take 3 (trimChars c.data))

/-- `m[:3].lower()` of a month abbreviation. -/
def monKey (m : String) : List Char := lowerChars (List.take 3 m.data)

/-- The strict month test: header's first three stripped characters equal
the month code, case-insensitively. -/
def monthMatch (m c : String) : Bool := colKey c = monKey m

/-- Inner loop of `detect_month_columns` for one month: scan the headers
and append the first matching one not already picked (the `break` sits
inside the `if c not in res`, so an already-picked match keeps scanning). -/
def monthScan (m : String) (res : List String) : List String → List String
  | [] => res
  | c :: t =>
    if monthMatch m c then
      if res.contains c then monthScan m res t else res ++ [c]
    else monthScan m res t

/-- `detect_month_columns` (src/Dashclim.py lines 1009-1021): month
columns in canonical order Jan..Des. -/
def detect_month_columns (cols : List String) : List String :=
  MONTH_ABBR.foldl (fun res m => monthScan m res cols) []

/-- The strict month-column pass of the Performa Stasiun page
(src/Dashclim.py lines 1249-1253), which uses `next(...)` = plain first
match per month. -/
def month_cols_strict2 (cols : List String) : List String :=
  MONTH_ABBR.foldl
    (fun acc m =>
      match cols.find? (fun c => monthMatch m c) with
      | some c => acc ++ [c]
      | none => acc)
    []

/-- `m[:3].lower() in str(c).lower()`: the loose substring month test. -/
def monthContains (m c : String) : Bool :=
  containsSub (monKey m) (lowerChars c.data)

/-- The substring fallback (src/Dashclim.py lines 1062-1069 and
1256-1263): all headers containing some month code, re-ordered
month-major; for each month, every not-yet-used matching header is
appended (there is no `break`). -/
def month_fallback (cols : List String) : List String :=
  let possible := cols.filter (fun c => MONTH_ABBR.any (fun m => monthContains m c))
  MONTH_ABBR.foldl
    (fun ord m =>
      possible.foldl
        (fun o c => if !o.contains c && monthContains m c then o ++ [c] else o)
        ord)
    []

/-- Month resolution of the Monitoring Tahunan page: strict pass, then
the substring fallback when the strict pass found nothing. -/
def resolve_month_cols (cols : List String) : List String :=
  let b := detect_month_columns cols
  if b.isEmpty then month_fallback cols else b

/-- Month resolution of the Performa Stasiun page: strict pass
(`next`-based), then the same substring fallback. -/
def resolve_month_cols2 (cols : List String) : List String :=
  let b := month_cols_strict2 cols
  if b.isEmpty then month_fallback cols else b

/-- `pct_tepat` at the Monitoring Tahunan site (src/Dashclim.py lines
1099-1103): `TOTAL` is the sum of the three counts (the
`replace(0, nan).fillna(0)` round-trip is the identity on it), and the
`0/0` NaN of the zero-total case is filled to `0`. -/
def pct_tepat_tahunan (tepat terlambat tidak : Nat) : ℚ :=
  let total := tepat + terlambat + tidak
  if total = 0 then 0 else (tepat : ℚ) / (total : ℚ)

/-- `pct_tepat` at the Performa Stasiun site (src/Dashclim.py line 1318):
division by `TOTAL.replace({0: nan})` followed by `fillna(0)`, so a zero
total yields `0`. -/
def pct_tepat_performa (tepat terlambat tidak : Nat) : ℚ :=
  let total := tepat + terlambat + tidak
  if total = 0 then 0 else (tepat : ℚ) / (total : ℚ)

/-- `color_hex` (src/Dashclim.py lines 1106-1115): the four-tier map
color. Thresholds 0.8 and 0.3 are modelled exactly as rationals. -/
def color_hex (pct : ℚ) (terl tdk : ℤ) : String :=
  if pct ≥ 4 / 5 then "#2ecc71"
  else if pct ≥ 3 / 10 then "#f1c40f"
  else if pct < 3 / 10 ∧ terl > tdk then "#e74c3c"
  else "#000000"

/-! ## Theorems -/

/-- Helper: `isPrefixOf` is transitive. -/
theorem isPrefixOf_trans {p q l : List Char} (h1 : p.isPrefixOf q = true)
    (h2 : q.isPrefixOf l = true) : p.isPrefixOf l = true := by
  induction p generalizing q l with
  | nil => simp [List.isPrefixOf]
  | cons a p' ih =>
    cases q with
    | nil => simp [List.isPrefixOf] at h1
    | cons b q' =>
      cases l with
      | nil => simp [List.isPrefixOf] at h2
      | cons c l' =>
        simp only [List.isPrefixOf, Bool.and_eq_true, beq_iff_eq] at h1 h2 ⊢
        exact ⟨h1.1.trans h2.1, ih h1.2 h2.2⟩

/-- Helper: the three official counts are over pairwise distinct exact
strings, so each cell is counted at most once across them. -/
theorem hitung_three_counts_le (cells : List String) :
    hitung cells "TEPAT WAKTU" + hitung cells "TERLAMBAT" +
      hitung cells "TIDAK MENGIRIM" ≤ cells.length := by
  induction cells with
  | nil => simp [hitung]
  | cons c t ih =>
    have e1 : ∀ kata, hitung (c :: t) kata =
        (if String.mk (upperChars (trimChars c.data)) = kata then 1 else 0) +
          hitung t kata := by
      intro kata
      by_cases h : String.mk (upperChars (trimChars c.data)) = kata <;>
        simp [hitung, List.filter_cons, h, Nat.add_comm]
    rw [e1, e1, e1, List.length_cons]
    have hsum : (if String.mk (upperChars (trimChars c.data)) = "TEPAT WAKTU" then (1 : ℕ) else 0) +
        (if String.mk (upperChars (trimChars c.data)) = "TERLAMBAT" then (1 : ℕ) else 0) +
        (if String.mk (upperChars (trimChars c.data)) = "TIDAK MENGIRIM" then (1 : ℕ) else 0) ≤ 1 := by
      by_cases h1 : String.mk (upperChars (trimChars c.data)) = "TEPAT WAKTU"
      · rw [h1]; decide
      · by_cases h2 : String.mk (upperChars (trimChars c.data)) = "TERLAMBAT"
        · rw [h2]; decide
        · by_cases h3 : String.mk (upperChars (trimChars c.data)) = "TIDAK MENGIRIM"
          · rw [h3]; decide
          · rw [if_neg h1, if_neg h2, if_neg h3]; omega
    omega

/-- C1: the record-based classifier applies its rules in fixed
first-match-wins order: `sent = false` forces NOT_SENT regardless of the
other fields; `sent ∧ on_time` gives ON_TIME; otherwise a numeric delta
strictly greater than 0 gives ON_TIME (overriding `on_time = false`) and
a delta ≤ 0 gives LATE; with no usable delta the default is ON_TIME.
In particular delta 2.0 classifies ON_TIME and delta -2.0 LATE. -/
theorem c1_derive_status_rule_order :
    (∀ (tepat : Bool) (d : DeltaCell), derive_status false tepat d = "TIDAK MENGIRIM") ∧
    (∀ d : DeltaCell, derive_status true true d = "TEPAT WAKTU") ∧
    (∀ q : ℚ, 0 < q → derive_status true false (.num q) = "TEPAT WAKTU") ∧
    (∀ q : ℚ, q ≤ 0 → derive_status true false (.num q) = "TERLAMBAT") ∧
    (∀ d : DeltaCell, (∀ q : ℚ, d ≠ .num q) → derive_status true false d = "TEPAT WAKTU") ∧
    derive_status true false (.num 2) = "TEPAT WAKTU" ∧
    derive_status true false (.num (-2)) = "TERLAMBAT" := by
  refine ⟨fun tepat d => rfl, fun d => rfl, ?_, ?_, ?_, by decide, by decide⟩
  · intro q h
    simp [derive_status, h]
  · intro q h
    simp [derive_status, not_lt.mpr h]
  · intro d h
    cases d with
    | num q => exact absurd rfl (h q)
    | missing => rfl
    | nanCell => rfl
    | malformed => rfl

/-- Witness for C1 at concrete inputs. -/
theorem c1_derive_status_rule_order_witness :
    ((0 : ℚ) < 2 ∧ derive_status true false (.num 2) = "TEPAT WAKTU") ∧
    ((-2 : ℚ) ≤ 0 ∧ derive_status true false (.num (-2)) = "TERLAMBAT") ∧
    derive_status true false .missing = "TEPAT WAKTU" :=
  ⟨⟨by norm_num, c1_derive_status_rule_order.2.2.1 2 (by norm_num)⟩,
   ⟨by norm_num, c1_derive_status_rule_order.2.2.2.1 (-2) (by norm_num)⟩,
   c1_derive_status_rule_order.2.2.2.2.1 .missing (fun q h => by cases h)⟩

/-- C9: for every combination of present/absent/malformed fields, the
record-based classifier returns one of exactly the three status strings
ON_TIME / LATE / NOT_SENT — never a fourth value. -/
theorem c9_derive_status_three_valued (terkirim tepat : Bool) (d : DeltaCell) :
    derive_status terkirim tepat d = "TEPAT WAKTU" ∨
    derive_status terkirim tepat d = "TERLAMBAT" ∨
    derive_status terkirim tepat d = "TIDAK MENGIRIM" := by
  cases terkirim with
  | false => exact Or.inr (Or.inr rfl)
  | true =>
    cases tepat with
    | true => exact Or.inl rfl
    | false =>
      cases d with
      | num q =>
        by_cases h : 0 < q
        · left; simp [derive_status, h]
        · right; left; simp [derive_status, h]
      | missing => exact Or.inl rfl
      | nanCell => exact Or.inl rfl
      | malformed => exact Or.inl rfl

/-- C6: at both aggregation sites, the on-time percentage is in `[0, 1]`
for all station-count inputs and is `0` when the total is `0` (the
division is guarded, never a fault). -/
theorem c6_pct_tepat_bounds (t l n : ℕ) :
    (0 ≤ pct_tepat_tahunan t l n ∧ pct_tepat_tahunan t l n ≤ 1 ∧
      (t + l + n = 0 → pct_tepat_tahunan t l n = 0)) ∧
    (0 ≤ pct_tepat_performa t l n ∧ pct_tepat_performa t l n ≤ 1 ∧
      (t + l + n = 0 → pct_tepat_performa t l n = 0)) := by
  have key : ∀ f : ℕ → ℕ → ℕ → ℚ,
      (∀ a b c, f a b c = if a + b + c = 0 then 0 else (a : ℚ) / ((a + b + c : ℕ) : ℚ)) →
      0 ≤ f t l n ∧ f t l n ≤ 1 ∧ (t + l + n = 0 → f t l n = 0) := by
    intro f hf
    rw [hf]
    by_cases h : t + l + n = 0
    · simp [h]
    · have hpos : (0 : ℚ) < ((t + l + n : ℕ) : ℚ) := by
        exact_mod_cast Nat.pos_of_ne_zero h
      refine ⟨?_, ?_, fun hc => absurd hc h⟩
      · simp only [h, if_false]
        exact div_nonneg (Nat.cast_nonneg t) (le_of_lt hpos)
      · simp only [h, if_false]
        rw [div_le_one hpos]
        exact_mod_cast Nat.le_add_right t l |>.trans (Nat.le_add_right (t + l) n)
  exact ⟨key pct_tepat_tahunan (fun a b c => rfl),
         key pct_tepat_performa (fun a b c => rfl)⟩

/-- Witness for C6 at the all-zero input. -/
theorem c6_pct_tepat_bounds_witness :
    0 + 0 + 0 = 0 ∧ pct_tepat_tahunan 0 0 0 = 0 ∧ pct_tepat_performa 0 0 0 = 0 :=
  ⟨rfl, (c6_pct_tepat_bounds 0 0 0).1.2.2 rfl, (c6_pct_tepat_bounds 0 0 0).2.2.2 rfl⟩

/-- C8: the tier classifier is total and deterministic on every
`(pct, late, not_sent)` triple: the result is exactly one of the four
tier colors, characterized by the strict priority chain
`pct ≥ 0.8` → green; else `0.3 ≤ pct < 0.8` → yellow; else
`pct < 0.3 ∧ late > not_sent` → red; else black. -/
theorem c8_color_hex_total (pct : ℚ) (terl tdk : ℤ) :
    (color_hex pct terl tdk = "#2ecc71" ∨ color_hex pct terl tdk = "#f1c40f" ∨
     color_hex pct terl tdk = "#e74c3c" ∨ color_hex pct terl tdk = "#000000") ∧
    (color_hex pct terl tdk = "#2ecc71" ↔ pct ≥ 4 / 5) ∧
    (color_hex pct terl tdk = "#f1c40f" ↔ (3 / 10 ≤ pct ∧ pct < 4 / 5)) ∧
    (color_hex pct terl tdk = "#e74c3c" ↔ (pct < 3 / 10 ∧ tdk < terl)) ∧
    (color_hex pct terl tdk = "#000000" ↔ (pct < 3 / 10 ∧ terl ≤ tdk)) ∧
    color_hex pct terl tdk = color_hex pct terl tdk := by
  unfold color_hex
  split_ifs with h1 h2 h3
  · exact ⟨Or.inl rfl,
      iff_of_true rfl h1,
      iff_of_false (by decide) (fun hc => absurd h1 (not_le.mpr hc.2)),
      iff_of_false (by decide) (fun hc => absurd hc.1 (not_lt.mpr (by linarith))),
      iff_of_false (by decide) (fun hc => absurd hc.1 (not_lt.mpr (by linarith))),
      rfl⟩
  · exact ⟨Or.inr (Or.inl rfl),
      iff_of_false (by decide) h1,
      iff_of_true rfl ⟨h2, not_le.mp h1⟩,
      iff_of_false (by decide) (fun hc => absurd h2 (not_le.mpr hc.1)),
      iff_of_false (by decide) (fun hc => absurd h2 (not_le.mpr hc.1)),
      rfl⟩
  · exact ⟨Or.inr (Or.inr (Or.inl rfl)),
      iff_of_false (by decide) h1,
      iff_of_false (by decide) (fun hc => absurd hc.1 h2),
      iff_of_true rfl ⟨h3.1, h3.2⟩,
      iff_of_false (by decide) (fun hc => absurd hc.2 (not_le.mpr h3.2)),
      rfl⟩
  · have hlt : pct < 3 / 10 := not_le.mp h2
    have hle : terl ≤ tdk := by
      by_contra hgt
      exact h3 ⟨hlt, lt_of_not_le hgt⟩
    exact ⟨Or.inr (Or.inr (Or.inr rfl)),
      iff_of_false (by decide) h1,
      iff_of_false (by decide) (fun hc => absurd hc.1 h2),
      iff_of_false (by decide) (fun hc => absurd hc.2 (not_lt.mpr hle)),
      iff_of_true rfl ⟨hlt, hle⟩,
      rfl⟩

/-- C2 counterexample: at the yearly-map normalization point `norm_cell`,
the cells `"-"`, `""` and `"N/A"` are NOT mapped to `TIDAK MENGIRIM`
(NOT_SENT) — they pass through unchanged — refuting the claim that the
blank/`-`/`N/A` → NOT_SENT rule holds at both normalization points. -/
theorem c2_norm_cell_passthrough_counterexample :
    norm_cell (some "-") = "-" ∧ ("-" : String) ≠ "TIDAK MENGIRIM" ∧
    norm_cell (some "") = "" ∧ norm_cell (some "N/A") = "N/A" := by
  decide

/-- C2 amended: the substring rules (TEPAT → ON_TIME, else TERLAMBAT →
LATE, else TIDAK → NOT_SENT) hold at both normalization points, and any
other cell passes through as its trimmed upper-cased text, excluded from
the three official counts; but blank/`-`/`N/A`/`NA` map to NOT_SENT only
in the station-performance normalizer `norm_status_cell`, while the
yearly-map normalizer `norm_cell` passes them through (a NaN cell
becomes `""` at both points). -/
theorem c2_cell_normalizers_amended :
    (∀ s : String, containsSub "TEPAT".data (upperChars (trimChars s.data)) = true →
        norm_cell (some s) = "TEPAT WAKTU" ∧ norm_status_cell (some s) = "TEPAT WAKTU") ∧
    (∀ s : String, containsSub "TEPAT".data (upperChars (trimChars s.data)) = false →
        containsSub "TERLAMBAT".data (upperChars (trimChars s.data)) = true →
        norm_cell (some s) = "TERLAMBAT" ∧ norm_status_cell (some s) = "TERLAMBAT") ∧
    (∀ s : String, containsSub "TEPAT".data (upperChars (trimChars s.data)) = false →
        containsSub "TERLAMBAT".data (upperChars (trimChars s.data)) = false →
        containsSub "TIDAK".data (upperChars (trimChars s.data)) = true →
        norm_cell (some s) = "TIDAK MENGIRIM" ∧ norm_status_cell (some s) = "TIDAK MENGIRIM") ∧
    (norm_status_cell (some "") = "TIDAK MENGIRIM" ∧
     norm_status_cell (some "-") = "TIDAK MENGIRIM" ∧
     norm_status_cell (some "N/A") = "TIDAK MENGIRIM" ∧
     norm_status_cell (some "NA") = "TIDAK MENGIRIM") ∧
    (norm_cell (some "") = "" ∧ norm_cell (some "-") = "-" ∧
     norm_cell (some "N/A") = "N/A") ∧
    (norm_cell none = "" ∧ norm_status_cell none = "") ∧
    (∀ s : String,
        containsSub "TEPAT".data (upperChars (trimChars s.data)) = false →
        containsSub "TERLAMBAT".data (upperChars (trimChars s.data)) = false →
        containsSub "TIDAK".data (upperChars (trimChars s.data)) = false →
        norm_cell (some s) = String.mk (upperChars (trimChars s.data))) ∧
    (∀ cells : List String,
        hitung cells "TEPAT WAKTU" + hitung cells "TERLAMBAT" +
          hitung cells "TIDAK MENGIRIM" ≤ cells.length) := by
  have hsub : ∀ s : List Char, containsSub "TIDAK MENGIRIM".data s = true →
      containsSub "TIDAK".data s = true := by
    intro s h
    induction s with
    | nil => simp [containsSub, List.isEmpty] at h
    | cons c t ih =>
      simp only [containsSub, Bool.or_eq_true] at h ⊢
      rcases h with h | h
      · exact Or.inl (isPrefixOf_trans (by decide) h)
      · exact Or.inr (ih h)
  refine ⟨?_, ?_, ?_, by decide, by decide, ⟨rfl, rfl⟩, ?_, hitung_three_counts_le⟩
  · intro s h
    constructor <;> simp [norm_cell, norm_status_cell, h]
  · intro s h1 h2
    constructor <;> simp [norm_cell, norm_status_cell, h1, h2]
  · intro s h1 h2 h3
    constructor <;> simp [norm_cell, norm_status_cell, h1, h2, h3]
  · intro s h1 h2 h3
    have h4 : containsSub "TIDAK MENGIRIM".data (upperChars (trimChars s.data)) = false := by
      cases hc : containsSub "TIDAK MENGIRIM".data (upperChars (trimChars s.data))
      · rfl
      · exact absurd (hsub _ hc) (by simp [h3])
    simp only [norm_cell, h1, h2, h3, h4, Bool.false_or, Bool.or_false, if_false,
      Bool.false_eq_true]
    split <;> rfl

/-- Witness for C2 amended, instantiating the substring rules and the
count bound at concrete inputs. -/
theorem c2_cell_normalizers_amended_witness :
    (containsSub "TEPAT".data (upperChars (trimChars " tepat waktu ".data)) = true ∧
      norm_cell (some " tepat waktu ") = "TEPAT WAKTU") ∧
    (containsSub "TIDAK".data (upperChars (trimChars "tidak kirim".data)) = true ∧
      norm_status_cell (some "tidak kirim") = "TIDAK MENGIRIM") ∧
    (norm_cell (some "HUJAN") = "HUJAN" ∧
      hitung ["HUJAN", "TEPAT WAKTU"] "TEPAT WAKTU" +
        hitung ["HUJAN", "TEPAT WAKTU"] "TERLAMBAT" +
        hitung ["HUJAN", "TEPAT WAKTU"] "TIDAK MENGIRIM" ≤ 2) :=
  ⟨⟨by decide, (c2_cell_normalizers_amended.1 " tepat waktu " (by decide)).1⟩,
   ⟨by decide,
    (c2_cell_normalizers_amended.2.2.1 "tidak kirim" (by decide) (by decide) (by decide)).2⟩,
   ⟨by
      have := c2_cell_normalizers_amended.2.2.2.2.2.2.1 "HUJAN"
        (by decide) (by decide) (by decide)
      simpa using this,
    c2_cell_normalizers_amended.2.2.2.2.2.2.2 ["HUJAN", "TEPAT WAKTU"]⟩⟩

/-- C3 counterexample: with headers `["lat", "latitude"]` both satisfy
the latitude predicate, yet the detection loop selects `"latitude"` —
the LAST satisfying column — refuting the claim that the first
satisfying column is selected. -/
theorem c3_latlon_first_match_counterexample :
    (detect_latlon ["lat", "latitude"]).1 = some "latitude" ∧
    (some "latitude" : Option String) ≠ some "lat" ∧
    latHeaderMatch "lat" = true := by
  decide

/-- C3 amended: the loop assigns on every match, so for each axis the
LAST satisfying column in left-to-right header order is selected; the
match is on the exact lowercase names (including `coord_lat` /
`coord_lon`, which the original claim omitted) or a 3-character prefix. -/
theorem c3_latlon_last_match_amended (cols : List String) :
    detect_latlon cols = (lastMatch latHeaderMatch cols, lastMatch lonHeaderMatch cols) ∧
    latHeaderMatch "coord_lat" = true ∧ lonHeaderMatch "coord_lon" = true := by
  refine ⟨?_, by decide, by decide⟩
  have split : ∀ (l : List String) (a b : Option String),
      l.foldl (fun acc c =>
        (if latHeaderMatch c then some c else acc.1,
         if lonHeaderMatch c then some c else acc.2)) (a, b) =
      (l.foldl (fun x c => if latHeaderMatch c then some c else x) a,
       l.foldl (fun x c => if lonHeaderMatch c then some c else x) b) := by
    intro l
    induction l with
    | nil => intro a b; rfl
    | cons c t ih => intro a b; simp only [List.foldl_cons]; rw [ih]
  have single : ∀ (p : String → Bool) (l : List String) (init : Option String),
      l.foldl (fun x c => if p c then some c else x) init =
        (l.reverse.find? p).or init := by
    intro p l
    induction l with
    | nil => intro init; simp [List.find?]
    | cons c t ih =>
      intro init
      simp only [List.foldl_cons, List.reverse_cons, List.find?_append]
      rw [ih, Option.or_assoc]
      congr 1
      cases h : p c <;> simp [List.find?, h, Option.or]
  unfold detect_latlon lastMatch
  rw [split, single, single, Option.or_none, Option.or_none]

/-- Helper: one `monthScan` pass either leaves the accumulator unchanged
or appends exactly one column matching the month. -/
theorem monthScan_spec (m : String) (res cols : List String) :
    monthScan m res cols = res ∨
      ∃ c, monthMatch m c = true ∧ monthScan m res cols = res ++ [c] := by
  induction cols with
  | nil => exact Or.inl rfl
  | cons c t ih =>
    simp only [monthScan]
    by_cases h : monthMatch m c = true
    · simp only [h, if_true]
      by_cases hc : res.contains c = true
      · simp only [hc, if_true]
        exact ih
      · simp only [hc, if_false]
        exact Or.inr ⟨c, h, rfl⟩
    · simp only [h, if_false]
      exact ih

/-- Helper: a month-major fold whose step appends at most one
month-matching column produces keys forming a subsequence of the month
codes, hence in canonical Jan..Des order. -/
theorem foldl_months_key_sublist (step : List String → String → List String)
    (hstep : ∀ res m, step res m = res ∨
      ∃ c, monthMatch m c = true ∧ step res m = res ++ [c]) :
    ∀ (ms res : List String),
      ((ms.foldl step res).map colKey).Sublist (res.map colKey ++ ms.map monKey) := by
  intro ms
  induction ms with
  | nil => intro res; simp
  | cons m ms' ih =>
    intro res
    simp only [List.foldl_cons, List.map_cons]
    rcases hstep res m with h | ⟨c, hc, h⟩
    · rw [h]
      exact (ih res).trans (List.Sublist.append_left (List.sublist_cons_self _ _) _)
    · rw [h]
      have hkey : colKey c = monKey m := of_decide_eq_true (by simpa [monthMatch] using hc)
      have h3 := ih (res ++ [c])
      rw [List.map_append] at h3
      simp only [List.map_cons, List.map_nil] at h3
      rw [hkey] at h3
      rwa [List.append_assoc, List.singleton_append] at h3

/-- C7 counterexample: with headers `["x_Jan_a", "x_Jan_b"]` no header
matches any month by strict 3-character prefix, so the substring
fallback runs — and it appends BOTH headers for Jan (there is no `break`
in the fallback loop), refuting the claim that each month is mapped to
the first-encountered matching column only. -/
theorem c7_month_fallback_counterexample :
    resolve_month_cols ["x_Jan_a", "x_Jan_b"] = ["x_Jan_a", "x_Jan_b"] ∧
    resolve_month_cols ["x_Jan_a", "x_Jan_b"] ≠ ["x_Jan_a"] ∧
    resolve_month_cols2 ["x_Jan_a", "x_Jan_b"] = ["x_Jan_a", "x_Jan_b"] := by
  decide

/-- C7 amended: month resolution returns columns in canonical Jan..Des
order (their 3-character keys form a subsequence of the canonical month
codes) at both detection sites; on the strict-prefix path each month
takes the first matching header; the substring fallback runs only when
the strict pass finds nothing, and it appends EVERY not-yet-used header
containing the month code (possibly several per month), not only the
first. -/
theorem c7_month_resolution_amended :
    (resolve_month_cols ["Des_2024", "Jan_2024", "status"] = ["Jan_2024", "Des_2024"] ∧
     resolve_month_cols2 ["Des_2024", "Jan_2024", "status"] = ["Jan_2024", "Des_2024"]) ∧
    resolve_month_cols ["Jan_A", "Jan_B"] = ["Jan_A"] ∧
    (∀ cols, ((detect_month_columns cols).map colKey).Sublist (MONTH_ABBR.map monKey)) ∧
    (∀ cols, ((month_cols_strict2 cols).map colKey).Sublist (MONTH_ABBR.map monKey)) ∧
    (∀ cols, detect_month_columns cols ≠ [] →
      resolve_month_cols cols = detect_month_columns cols) ∧
    (∀ cols, detect_month_columns cols = [] →
      resolve_month_cols cols = month_fallback cols) ∧
    (∀ cols, month_cols_strict2 cols ≠ [] →
      resolve_month_cols2 cols = month_cols_strict2 cols) ∧
    (∀ cols, month_cols_strict2 cols = [] →
      resolve_month_cols2 cols = month_fallback cols) := by
  refine ⟨⟨by decide, by decide⟩, by decide, ?_, ?_, ?_, ?_, ?_, ?_⟩
  · intro cols
    have := foldl_months_key_sublist (fun res m => monthScan m res cols)
      (fun res m => monthScan_spec m res cols) MONTH_ABBR []
    simpa [detect_month_columns] using this
  · intro cols
    have hstep : ∀ (res : List String) (m : String),
        (match cols.find? (fun c => monthMatch m c) with
          | some c => res ++ [c]
          | none => res) = res ∨
        ∃ c, monthMatch m c = true ∧
          (match cols.find? (fun c => monthMatch m c) with
            | some c => res ++ [c]
            | none => res) = res ++ [c] := by
      intro res m
      cases hf : cols.find? (fun c => monthMatch m c) with
      | none => exact Or.inl rfl
      | some c => exact Or.inr ⟨c, List.find?_some hf, rfl⟩
    have := foldl_months_key_sublist _ hstep MONTH_ABBR []
    simpa [month_cols_strict2] using this
  · intro cols h
    simp [resolve_month_cols, List.isEmpty_iff, h]
  · intro cols h
    simp [resolve_month_cols, List.isEmpty_iff, h]
  · intro cols h
    simp [resolve_month_cols2, List.isEmpty_iff, h]
  · intro cols h
    simp [resolve_month_cols2, List.isEmpty_iff, h]

/-- Witness for C7 amended: the strict/fallback dichotomy at concrete
header lists. -/
theorem c7_month_resolution_amended_witness :
    (detect_month_columns ["Jan"] ≠ [] ∧
      resolve_month_cols ["Jan"] = detect_month_columns ["Jan"]) ∧
    (detect_month_columns ["x_Jan_a"] = [] ∧
      resolve_month_cols ["x_Jan_a"] = month_fallback ["x_Jan_a"]) ∧
    (month_cols_strict2 ["Jan"] ≠ [] ∧
      resolve_month_cols2 ["Jan"] = month_cols_strict2 ["Jan"]) :=
  ⟨⟨by decide, c7_month_resolution_amended.2.2.2.2.1 ["Jan"] (by decide)⟩,
   ⟨by decide, c7_month_resolution_amended.2.2.2.2.2.1 ["x_Jan_a"] (by decide)⟩,
   ⟨by decide, c7_month_resolution_amended.2.2.2.2.2.2.1 ["Jan"] (by decide)⟩⟩

/-- C4: for every non-blank input the duration parser returns
`sign × (days×24 + hours + minutes/60 + seconds/3600)` where the sign is
determined once from the whole (normalized) string — leading `-` gives
`-1`, anything else `+1` — and each unit magnitude defaults to 0 when
its token is absent; in particular `"2 hari 3 jam"` parses to `51` and
`"-1 jam 30 mnt"` to `-1.5`. -/
theorem c4_parse_delta_formula :
    parse_delta_to_hours (some "2 hari 3 jam") = some 51 ∧
    parse_delta_to_hours (some "-1 jam 30 mnt") = some (-(3 / 2)) ∧
    (∀ s : String, trimChars s.data ≠ [] →
      parse_delta_to_hours (some s) =
        some (signDelta (trimChars s.data) *
          ((daysOf (trimChars s.data) : ℚ) * 24 + (hoursOf (trimChars s.data) : ℚ) +
            (minsOf (trimChars s.data) : ℚ) / 60 + (secsOf (trimChars s.data) : ℚ) / 3600))) ∧
    (∀ s : String, (normDelta (trimChars s.data)).head? = some '-' →
      signDelta (trimChars s.data) = -1) ∧
    (∀ s : String, (normDelta (trimChars s.data)).head? ≠ some '-' →
      signDelta (trimChars s.data) = 1) := by
  refine ⟨?_, ?_, ?_, ?_, ?_⟩
  · have h0 : (trimChars "2 hari 3 jam".data).isEmpty = false := by decide
    have hd : daysOf (trimChars "2 hari 3 jam".data) = 2 := by decide
    have hh : hoursOf (trimChars "2 hari 3 jam".data) = 3 := by decide
    have hm : minsOf (trimChars "2 hari 3 jam".data) = 0 := by decide
    have hs : secsOf (trimChars "2 hari 3 jam".data) = 0 := by decide
    have hg : signDelta (trimChars "2 hari 3 jam".data) = 1 := by decide
    simp only [parse_delta_to_hours, h0, hd, hh, hm, hs, hg, Bool.false_eq_true, if_false]
    norm_num
  · have h0 : (trimChars "-1 jam 30 mnt".data).isEmpty = false := by decide
    have hd : daysOf (trimChars "-1 jam 30 mnt".data) = 0 := by decide
    have hh : hoursOf (trimChars "-1 jam 30 mnt".data) = 1 := by decide
    have hm : minsOf (trimChars "-1 jam 30 mnt".data) = 30 := by decide
    have hs : secsOf (trimChars "-1 jam 30 mnt".data) = 0 := by decide
    have hg : signDelta (trimChars "-1 jam 30 mnt".data) = -1 := by decide
    simp only [parse_delta_to_hours, h0, hd, hh, hm, hs, hg, Bool.false_eq_true, if_false]
    norm_num
  · intro s h
    simp [parse_delta_to_hours, List.isEmpty_iff, h]
  · intro s h
    simp [signDelta, h]
  · intro s h
    simp [signDelta, h]

/-- Witness for C4 at concrete inputs. -/
theorem c4_parse_delta_formula_witness :
    (trimChars "2 jam".data ≠ [] ∧
      parse_delta_to_hours (some "2 jam") =
        some (signDelta (trimChars "2 jam".data) *
          ((daysOf (trimChars "2 jam".data) : ℚ) * 24 + (hoursOf (trimChars "2 jam".data) : ℚ) +
            (minsOf (trimChars "2 jam".data) : ℚ) / 60 +
            (secsOf (trimChars "2 jam".data) : ℚ) / 3600))) ∧
    ((normDelta (trimChars "-1 jam".data)).head? = some '-' ∧
      signDelta (trimChars "-1 jam".data) = -1) ∧
    ((normDelta (trimChars "5 jam".data)).head? ≠ some '-' ∧
      signDelta (trimChars "5 jam".data) = 1) :=
  ⟨⟨by decide, c4_parse_delta_formula.2.2.1 "2 jam" (by decide)⟩,
   ⟨by decide, c4_parse_delta_formula.2.2.2.1 "-1 jam" (by decide)⟩,
   ⟨by decide, c4_parse_delta_formula.2.2.2.2 "5 jam" (by decide)⟩⟩

/-- C5: the duration parser returns `none` exactly for null/NaN or blank
input; it is a total function (never raises), and a non-blank string in
which no unit pattern matches yields `0`, not `none`. -/
theorem c5_parse_delta_null_blank_total :
    parse_delta_to_hours none = none ∧
    (∀ s : String, parse_delta_to_hours (some s) = none ↔ trimChars s.data = []) ∧
    (∀ s : String, trimChars s.data ≠ [] →
      findUnit ["hari".data] (normDelta (trimChars s.data)) = none →
      findUnit ["jam".data] (normDelta (trimChars s.data)) = none →
      findUnit ["mnt".data, "min".data] (normDelta (trimChars s.data)) = none →
      findUnit ["dtk".data, "sec".data, "s".data] (normDelta (trimChars s.data)) = none →
      parse_delta_to_hours (some s) = some 0) := by
  refine ⟨rfl, ?_, ?_⟩
  · intro s
    by_cases h : trimChars s.data = []
    · simp [parse_delta_to_hours, h]
    · simp [parse_delta_to_hours, List.isEmpty_iff, h]
  · intro s h h1 h2 h3 h4
    simp only [parse_delta_to_hours, List.isEmpty_iff, daysOf, hoursOf, minsOf, secsOf,
      h1, h2, h3, h4, Option.getD_none]
    rw [if_neg (by simp [List.isEmpty_iff, h])]
    norm_num

/-- Witness for C5 on a non-blank unit-free input. -/
theorem c5_parse_delta_null_blank_total_witness :
    (trimChars "xyz".data ≠ [] ∧ parse_delta_to_hours (some "xyz") = some 0) ∧
    (parse_delta_to_hours (some "   ") = none ↔ trimChars "   ".data = []) :=
  ⟨⟨by decide,
    c5_parse_delta_null_blank_total.2.2 "xyz" (by decide) (by decide) (by decide)
      (by decide) (by decide)⟩,
   c5_parse_delta_null_blank_total.2.1 "   "⟩

/-- Helper: `replaceAllGo` does not depend on the fuel once the fuel
covers the list length. -/
theorem replaceAllGo_fuel (pat repl : List Char) :
    ∀ (f1 f2 : Nat) (l : List Char), l.length ≤ f1 → l.length ≤ f2 →
      replaceAllGo pat repl f1 l = replaceAllGo pat repl f2 l := by
  intro f1
  induction f1 with
  | zero =>
    intro f2 l h1 h2
    have hl : l = [] := List.length_eq_zero.mp (Nat.le_zero.mp h1)
    subst hl
    cases f2 <;> rfl
  | succ k ih =>
    intro f2 l h1 h2
    cases l with
    | nil => cases f2 <;> rfl
    | cons c t =>
      cases f2 with
      | zero => simp at h2
      | succ k2 =>
        simp only [List.length_cons] at h1 h2
        simp only [replaceAllGo]
        by_cases hp : pat.isPrefixOf (c :: t) = true
        · rw [if_pos hp, if_pos hp]
          congr 1
          exact ih k2 _ (by rw [List.length_drop]; omega) (by rw [List.length_drop]; omega)
        · rw [if_neg hp, if_neg hp]
          congr 1
          exact ih k2 t (by omega) (by omega)

/-- Helper: `replaceAll` step equation when the pattern matches at the head. -/
theorem replaceAll_cons_pos (pat repl : List Char) (c : Char) (l : List Char)
    (h : pat.isPrefixOf (c :: l) = true) :
    replaceAll pat repl (c :: l) =
      repl ++ replaceAll pat repl (l.drop (pat.length - 1)) := by
  unfold replaceAll
  rw [List.length_cons]
  simp only [replaceAllGo]
  rw [if_pos h]
  congr 1
  exact replaceAllGo_fuel pat repl _ _ _ (by rw [List.length_drop]; omega) (le_refl _)

/-- Helper: `replaceAll` step equation when the pattern does not match at
the head. -/
theorem replaceAll_cons_neg (pat repl : List Char) (c : Char) (l : List Char)
    (h : ¬ pat.isPrefixOf (c :: l) = true) :
    replaceAll pat repl (c :: l) = c :: replaceAll pat repl l := by
  unfold replaceAll
  rw [List.length_cons]
  simp only [replaceAllGo]
  rw [if_neg h]

/-- Helper: a replacement whose pattern starts with a character absent
from a prefix block leaves that block untouched. -/
theorem replaceAll_append_of_head (pat repl : List Char) (a : Char)
    (hpat : pat.head? = some a) :
    ∀ (ds rest : List Char), (∀ c ∈ ds, c ≠ a) →
      replaceAll pat repl (ds ++ rest) = ds ++ replaceAll pat repl rest := by
  intro ds
  induction ds with
  | nil => intro rest _; simp
  | cons c t ih =>
    intro rest hds
    have hne : ¬ pat.isPrefixOf (c :: (t ++ rest)) = true := by
      cases pat with
      | nil => simp at hpat
      | cons p ps =>
        have hp : p = a := by simpa using hpat
        intro hcontra
        simp only [List.isPrefixOf, Bool.and_eq_true, beq_iff_eq] at hcontra
        exact hds c (List.mem_cons_self c t) (hcontra.1 ▸ hp)
    rw [List.cons_append, replaceAll_cons_neg _ _ _ _ hne,
      ih rest (fun x hx => hds x (List.mem_cons_of_mem _ hx))]
    rfl

/-- Helper: `takeWhile isDigit` absorbs an all-digit prefix block. -/
theorem takeWhile_digits_append :
    ∀ (ds rest : List Char), (∀ c ∈ ds, c.isDigit = true) →
      (ds ++ rest).takeWhile Char.isDigit = ds ++ rest.takeWhile Char.isDigit := by
  intro ds
  induction ds with
  | nil => intro rest _; rfl
  | cons c t ih =>
    intro rest hds
    rw [List.cons_append, List.takeWhile_cons, if_pos (hds c (List.mem_cons_self c t)),
      ih rest (fun x hx => hds x (List.mem_cons_of_mem _ hx))]
    rfl

/-- Helper: `dropWhile isDigit` skips an all-digit prefix block. -/
theorem dropWhile_digits_append :
    ∀ (ds rest : List Char), (∀ c ∈ ds, c.isDigit = true) →
      (ds ++ rest).dropWhile Char.isDigit = rest.dropWhile Char.isDigit := by
  intro ds
  induction ds with
  | nil => intro rest _; rfl
  | cons c t ih =>
    intro rest hds
    rw [List.cons_append, List.dropWhile_cons, if_pos (hds c (List.mem_cons_self c t))]
    exact ih rest (fun x hx => hds x (List.mem_cons_of_mem _ hx))

/-- Helper: a list whose `takeWhile` is empty is untouched by `dropWhile`. -/
theorem dropWhile_eq_self_of_takeWhile_nil (p : Char → Bool) (l : List Char)
    (h : l.takeWhile p = []) : l.dropWhile p = l := by
  cases l with
  | nil => rfl
  | cons c t =>
    have hc : ¬ p c = true := by
      intro hc
      rw [List.takeWhile_cons, if_pos hc] at h
      exact List.cons_ne_nil _ _ h
    rw [List.dropWhile_cons, if_neg hc]

/-- Helper: a digit character is not one of the special characters of the
duration parser (dashes, `h`, the sign). -/
theorem digit_ne_specials {c : Char} (h : c.isDigit = true) :
    c ≠ '–' ∧ c ≠ '—' ∧ c ≠ 'h' ∧ c ≠ '-' := by
  refine ⟨?_, ?_, ?_, ?_⟩ <;> intro he <;> subst he <;> exact absurd h (by decide)

/-- Helper: a digit character is not whitespace. -/
theorem isWs_eq_false_of_digit {c : Char} (h : c.isDigit = true) : isWs c = false := by
  cases hc : isWs c
  · rfl
  · exfalso
    simp only [isWs, Bool.or_eq_true, beq_iff_eq] at hc
    rcases hc with ((((h1 | h1) | h1) | h1) | h1) | h1 <;> subst h1 <;>
      exact absurd h (by decide)

/-- Helper: the scanner ignores a leading all-digit block whose following
unit check fails, resuming on the rest. -/
theorem findUnit_digits_skip (toks : List (List Char)) :
    ∀ (ds rest : List Char), (∀ c ∈ ds, c.isDigit = true) →
      rest.takeWhile Char.isDigit = [] →
      toks.any (fun tok => tok.isPrefixOf ((rest.dropWhile isWs).map Char.toLower)) = false →
      findUnit toks (ds ++ rest) = findUnit toks rest := by
  intro ds
  induction ds with
  | nil => intro rest _ _ _; rfl
  | cons c t ih =>
    intro rest hds hrest hfail
    have hdig : c.isDigit = true := hds c (List.mem_cons_self c t)
    have hds' : ∀ x ∈ t, x.isDigit = true := fun x hx => hds x (List.mem_cons_of_mem _ hx)
    rw [List.cons_append]
    simp only [findUnit, hdig, if_true]
    rw [dropWhile_digits_append t rest hds', dropWhile_eq_self_of_takeWhile_nil _ _ hrest,
      hfail]
    simp only [Bool.false_eq_true, if_false]
    exact ih rest hds' hrest hfail

/-- Helper: the scanner hits at the head of an all-digit block followed
(after whitespace) by a matching unit token, returning the block's value. -/
theorem findUnit_digits_hit (toks : List (List Char)) (d : Char) (ds rest : List Char)
    (hd : d.isDigit = true) (hds : ∀ c ∈ ds, c.isDigit = true)
    (hrest : rest.takeWhile Char.isDigit = [])
    (hhit : toks.any (fun tok => tok.isPrefixOf ((rest.dropWhile isWs).map Char.toLower)) = true) :
    findUnit toks ((d :: ds) ++ rest) = some (digitsVal (d :: ds)) := by
  rw [List.cons_append]
  simp only [findUnit, hd, if_true]
  rw [takeWhile_digits_append ds rest hds, hrest, List.append_nil,
    dropWhile_digits_append ds rest hds, dropWhile_eq_self_of_takeWhile_nil _ _ hrest, hhit]
  simp

/-- Helper: a list whose first character and whose last character are
both non-whitespace is unchanged by `trimChars`. -/
theorem trimChars_of_ends (l : List Char)
    (h1 : ∃ a t, l = a :: t ∧ isWs a = false)
    (h2 : ∃ b r, l.reverse = b :: r ∧ isWs b = false) :
    trimChars l = l := by
  obtain ⟨a, t, rfl, ha⟩ := h1
  obtain ⟨b, r, hr, hb⟩ := h2
  unfold trimChars
  rw [List.dropWhile_cons, if_neg (by simp [ha]), hr, List.dropWhile_cons,
    if_neg (by simp [hb]), ← hr, List.reverse_reverse]

/-- Helper: evaluation scaffold for the parser on a non-blank input. -/
theorem parse_delta_eval (l : List Char) (h : (trimChars l).isEmpty = false) :
    parse_delta_to_hours (some (String.mk l)) =
      some (signDelta (trimChars l) *
        ((daysOf (trimChars l) : ℚ) * 24 + (hoursOf (trimChars l) : ℚ) +
          (minsOf (trimChars l) : ℚ) / 60 + (secsOf (trimChars l) : ℚ) / 3600)) := by
  simp only [parse_delta_to_hours, h, Bool.false_eq_true, if_false]

/-- C10: the abbreviation normalization maps `"hrs"` to the hours unit
but bare `"hr"` to the days unit (`"hari"`): for any non-empty digit
string `ds`, `ds ++ " hrs"` parses to the value of `ds` in hours while
`ds ++ " hr"` parses to 24 times that value; in particular `"2 hrs"`
parses to `2` and `"2 hr"` to `48`. -/
theorem c10_hr_vs_hrs_units (ds : List Char) (hne : ds ≠ [])
    (hds : ∀ c ∈ ds, c.isDigit = true) :
    parse_delta_to_hours (some (String.mk (ds ++ " hrs".data))) =
      some ((digitsVal ds : ℚ)) ∧
    parse_delta_to_hours (some (String.mk (ds ++ " hr".data))) =
      some (24 * (digitsVal ds : ℚ)) ∧
    parse_delta_to_hours (some "2 hrs") = some 2 ∧
    parse_delta_to_hours (some "2 hr") = some 48 := by
  obtain ⟨d, ds', rfl⟩ : ∃ d ds', ds = d :: ds' := by
    cases ds with
    | nil => exact absurd rfl hne
    | cons d t => exact ⟨d, t, rfl⟩
  have hd : d.isDigit = true := hds d (List.mem_cons_self _ _)
  have hds' : ∀ c ∈ ds', c.isDigit = true := fun c hc => hds c (List.mem_cons_of_mem _ hc)
  have hne_en : ∀ c ∈ d :: ds', c ≠ '–' := fun c hc => (digit_ne_specials (hds c hc)).1
  have hne_em : ∀ c ∈ d :: ds', c ≠ '—' := fun c hc => (digit_ne_specials (hds c hc)).2.1
  have hne_h : ∀ c ∈ d :: ds', c ≠ 'h' := fun c hc => (digit_ne_specials (hds c hc)).2.2.1
  have htrim1 : trimChars ((d :: ds') ++ " hrs".data) = (d :: ds') ++ " hrs".data := by
    apply trimChars_of_ends
    · exact ⟨d, ds' ++ " hrs".data, by simp, isWs_eq_false_of_digit hd⟩
    · exact ⟨'s', "rh ".data ++ (d :: ds').reverse, by rw [List.reverse_append]; rfl, by decide⟩
  have htrim2 : trimChars ((d :: ds') ++ " hr".data) = (d :: ds') ++ " hr".data := by
    apply trimChars_of_ends
    · exact ⟨d, ds' ++ " hr".data, by simp, isWs_eq_false_of_digit hd⟩
    · exact ⟨'r', "h ".data ++ (d :: ds').reverse, by rw [List.reverse_append]; rfl, by decide⟩
  have hnorm1 : normDelta ((d :: ds') ++ " hrs".data) = (d :: ds') ++ " jam".data := by
    unfold normDelta
    rw [replaceAll_append_of_head "–".data "-".data '–' rfl _ _ hne_en,
      show replaceAll "–".data "-".data " hrs".data = " hrs".data from by decide,
      replaceAll_append_of_head "—".data "-".data '—' rfl _ _ hne_em,
      show replaceAll "—".data "-".data " hrs".data = " hrs".data from by decide,
      replaceAll_append_of_head "hrs".data "jam".data 'h' rfl _ _ hne_h,
      show replaceAll "hrs".data "jam".data " hrs".data = " jam".data from by decide,
      replaceAll_append_of_head "hr".data "hari".data 'h' rfl _ _ hne_h,
      show replaceAll "hr".data "hari".data " jam".data = " jam".data from by decide]
  have hnorm2 : normDelta ((d :: ds') ++ " hr".data) = (d :: ds') ++ " hari".data := by
    unfold normDelta
    rw [replaceAll_append_of_head "–".data "-".data '–' rfl _ _ hne_en,
      show replaceAll "–".data "-".data " hr".data = " hr".data from by decide,
      replaceAll_append_of_head "—".data "-".data '—' rfl _ _ hne_em,
      show replaceAll "—".data "-".data " hr".data = " hr".data from by decide,
      replaceAll_append_of_head "hrs".data "jam".data 'h' rfl _ _ hne_h,
      show replaceAll "hrs".data "jam".data " hr".data = " hr".data from by decide,
      replaceAll_append_of_head "hr".data "hari".data 'h' rfl _ _ hne_h,
      show replaceAll "hr".data "hari".data " hr".data = " hari".data from by decide]
  have hsign1 : signDelta ((d :: ds') ++ " hrs".data) = 1 := by
    unfold signDelta
    rw [hnorm1, show ((d :: ds') ++ " jam".data).head? = some d from rfl,
      if_neg (fun hc => (digit_ne_specials hd).2.2.2 (Option.some.inj hc))]
  have hsign2 : signDelta ((d :: ds') ++ " hr".data) = 1 := by
    unfold signDelta
    rw [hnorm2, show ((d :: ds') ++ " hari".data).head? = some d from rfl,
      if_neg (fun hc => (digit_ne_specials hd).2.2.2 (Option.some.inj hc))]
  have htw_jam : (" jam".data).takeWhile Char.isDigit = [] := by decide
  have htw_hari : (" hari".data).takeWhile Char.isDigit = [] := by decide
  have hdays1 : daysOf ((d :: ds') ++ " hrs".data) = 0 := by
    unfold daysOf
    rw [hnorm1, findUnit_digits_skip _ _ _ hds htw_jam (by decide)]
    decide
  have hhours1 : hoursOf ((d :: ds') ++ " hrs".data) = digitsVal (d :: ds') := by
    unfold hoursOf
    rw [hnorm1, findUnit_digits_hit _ d ds' _ hd hds' htw_jam (by decide)]
    rfl
  have hmins1 : minsOf ((d :: ds') ++ " hrs".data) = 0 := by
    unfold minsOf
    rw [hnorm1, findUnit_digits_skip _ _ _ hds htw_jam (by decide)]
    decide
  have hsecs1 : secsOf ((d :: ds') ++ " hrs".data) = 0 := by
    unfold secsOf
    rw [hnorm1, findUnit_digits_skip _ _ _ hds htw_jam (by decide)]
    decide
  have hdays2 : daysOf ((d :: ds') ++ " hr".data) = digitsVal (d :: ds') := by
    unfold daysOf
    rw [hnorm2, findUnit_digits_hit _ d ds' _ hd hds' htw_hari (by decide)]
    rfl
  have hhours2 : hoursOf ((d :: ds') ++ " hr".data) = 0 := by
    unfold hoursOf
    rw [hnorm2, findUnit_digits_skip _ _ _ hds htw_hari (by decide)]
    decide
  have hmins2 : minsOf ((d :: ds') ++ " hr".data) = 0 := by
    unfold minsOf
    rw [hnorm2, findUnit_digits_skip _ _ _ hds htw_hari (by decide)]
    decide
  have hsecs2 : secsOf ((d :: ds') ++ " hr".data) = 0 := by
    unfold secsOf
    rw [hnorm2, findUnit_digits_skip _ _ _ hds htw_hari (by decide)]
    decide
  have hempty1 : (trimChars ((d :: ds') ++ " hrs".data)).isEmpty = false := by
    rw [htrim1]; rfl
  have hempty2 : (trimChars ((d :: ds') ++ " hr".data)).isEmpty = false := by
    rw [htrim2]; rfl
  refine ⟨?_, ?_, ?_, ?_⟩
  · rw [parse_delta_eval _ hempty1, htrim1, hsign1, hdays1, hhours1, hmins1, hsecs1]
    norm_num
  · rw [parse_delta_eval _ hempty2, htrim2, hsign2, hdays2, hhours2, hmins2, hsecs2]
    push_cast
    ring_nf
  · have h0 : (trimChars "2 hrs".data).isEmpty = false := by decide
    have e1 : daysOf (trimChars "2 hrs".data) = 0 := by decide
    have e2 : hoursOf (trimChars "2 hrs".data) = 2 := by decide
    have e3 : minsOf (trimChars "2 hrs".data) = 0 := by decide
    have e4 : secsOf (trimChars "2 hrs".data) = 0 := by decide
    have e5 : signDelta (trimChars "2 hrs".data) = 1 := by decide
    simp only [parse_delta_to_hours, h0, e1, e2, e3, e4, e5, Bool.false_eq_true, if_false]
    norm_num
  · have h0 : (trimChars "2 hr".data).isEmpty = false := by decide
    have e1 : daysOf (trimChars "2 hr".data) = 2 := by decide
    have e2 : hoursOf (trimChars "2 hr".data) = 0 := by decide
    have e3 : minsOf (trimChars "2 hr".data) = 0 := by decide
    have e4 : secsOf (trimChars "2 hr".data) = 0 := by decide
    have e5 : signDelta (trimChars "2 hr".data) = 1 := by decide
    simp only [parse_delta_to_hours, h0, e1, e2, e3, e4, e5, Bool.false_eq_true, if_false]
    norm_num

/-- Witness for C10 at the digit string `['2']`. -/
theorem c10_hr_vs_hrs_units_witness :
    (['2'] : List Char) ≠ [] ∧
    parse_delta_to_hours (some (String.mk (['2'] ++ " hrs".data))) =
      some ((digitsVal ['2'] : ℚ)) ∧
    parse_delta_to_hours (some (String.mk (['2'] ++ " hr".data))) =
      some (24 * (digitsVal ['2'] : ℚ)) :=
  ⟨by decide, (c10_hr_vs_hrs_units ['2'] (by decide) (by decide)).1,
   (c10_hr_vs_hrs_units ['2'] (by decide) (by decide)).2.1⟩

end Dashclim
